import Mathlib

/-!
Verification of the ttrk time-tracking tool (src/main.rs): the session log
data model, the duration formatter `display_duration`, the fixup-format
formatter `format_log` and parser `parse_log_fmtd` (a shallow embedding of
the regex `LOG_LINE_REGEX`), the `Status` aggregation, the `Csv` export
rows, and the `Begin` command.

Strings are modelled as `List Char`.  Timestamps (`time::OffsetDateTime`
values wrapped in `Time`) are modelled by the record `Tm` holding the
fields of the display encoding `MM-DD-YYYY HH:MM:SS (UTC±HH:SS)`; the
`time` crate's offset-minute component is not expressible in this display
format (the format description prints `[offset_hour]:[offset_second]`),
so the model normalises it to zero.  Durations are whole seconds (`Int`);
`ttrk` truncates every stored timestamp to whole seconds (`get_time`
zeroes the nanosecond), so session durations are always whole seconds.
Rust `i64` division and remainder are truncating, hence `Int.tdiv` and
`Int.tmod`.
-/

set_option maxRecDepth 32768

/-- Timestamp: the calendar/time fields of an `OffsetDateTime` together
with its full UTC offset `±offHour:offMinute:offSecond`.  `offNeg` is the
sign of the offset; a real `OffsetDateTime` stores the zero offset with
positive sign (the format's `sign:mandatory` prints `+`), captured by
`Tm.canonical`.  Note that the display encoding `TIMESTAMP_FMT` prints
only `[offset_hour]` and `[offset_second]` — the offset's *minute*
component is silently dropped by the formatter and defaulted to zero by
the parser, so e.g. a `UTC+05:30` timestamp formats as `(UTC+05:00)`. -/
structure Tm where
  month : Nat
  day : Nat
  year : Nat
  hour : Nat
  minute : Nat
  second : Nat
  offNeg : Bool
  offHour : Nat
  offMinute : Nat
  offSecond : Nat
deriving DecidableEq, Repr

/-- Rust struct `Session { start, end, message }`.  The field `end` is a
Lean keyword, so it is called `stop` here. -/
structure Session where
  start : Tm
  stop : Option Tm
  message : Option (List Char)
deriving DecidableEq, Repr

/-- Rust struct `Log { completed: Vec<Session>, current: Option<Session> }`. -/
structure Log where
  completed : List Session
  current : Option Session
deriving DecidableEq, Repr

/-! ## Calendar arithmetic (the parts of the `time` crate the tool uses) -/

/-- Proleptic-Gregorian leap year predicate. -/
def isLeap (y : Nat) : Bool := (y % 4 == 0 && y % 100 != 0) || y % 400 == 0

/-- Days in a month (the `time` crate's `days_in_year_month`). -/
def daysInMonth (y m : Nat) : Nat :=
  if m = 1 then 31 else if m = 2 then (if isLeap y then 29 else 28)
  else if m = 3 then 31 else if m = 4 then 30 else if m = 5 then 31
  else if m = 6 then 30 else if m = 7 then 31 else if m = 8 then 31
  else if m = 9 then 30 else if m = 10 then 31 else if m = 11 then 30
  else if m = 12 then 31 else 0

/-- Day of the year (1-based), the `time` crate's `Date::ordinal`. -/
def ordinalDay (y m d : Nat) : Nat :=
  (List.range (m - 1)).foldl (fun a i => a + daysInMonth y (i + 1)) 0 + d

/-- Days in years `0, …, y-1` of the proleptic Gregorian calendar
(year 0 is a leap year). -/
def daysBeforeYear (y : Nat) : Nat :=
  365 * y + (y + 3) / 4 - (y + 99) / 100 + (y + 399) / 400

/-- Day number of a date, counting `0000-01-01` as day 0. -/
def dayNumber (y m d : Nat) : Nat := daysBeforeYear y + ordinalDay y m d - 1

/-- Total offset from UTC in seconds (the display encoding carries an
hour and a second component). -/
def Tm.offsetSecs (t : Tm) : Int :=
  (if t.offNeg then -1 else 1)
    * ((t.offHour : Int) * 3600 + (t.offMinute : Int) * 60 + (t.offSecond : Int))

/-- Absolute instant as seconds since `0000-01-01T00:00:00Z`; differences
of `epochSecs` model `time::Duration` between two `OffsetDateTime`s in
whole seconds. -/
def epochSecs (t : Tm) : Int :=
  (dayNumber t.year t.month t.day : Int) * 86400
    + ((t.hour * 3600 + t.minute * 60 + t.second : Nat) : Int) - t.offsetSecs

/-- Range checks performed by `OffsetDateTime::parse` with
`TIMESTAMP_FMT` (month/day via `Date::from_calendar_date`, time via
`Time::from_hms`, offset via `UtcOffset::from_hms`; the `time` crate
accepts offsets up to ±25:59:59).  The year is four digits in the display
encoding, so it is bounded by construction. -/
def Tm.validB (t : Tm) : Bool :=
  1 ≤ t.month && t.month ≤ 12 && 1 ≤ t.day && t.day ≤ daysInMonth t.year t.month
    && t.hour ≤ 23 && t.minute ≤ 59 && t.second ≤ 59
    && t.offHour ≤ 25 && t.offMinute ≤ 59 && t.offSecond ≤ 59 && t.year ≤ 9999

/-- A `Tm` produced by formatting a real `OffsetDateTime` never writes a
minus sign on the zero offset (`sign:mandatory` prints `+` for zero). -/
def Tm.canonical (t : Tm) : Prop :=
  t.offNeg = true → ¬(t.offHour = 0 ∧ t.offMinute = 0 ∧ t.offSecond = 0)

instance (t : Tm) : Decidable t.canonical := by
  unfold Tm.canonical; infer_instance

/-- A zero offset parsed from `(UTC-00:00)` is the same `UtcOffset` as
`+00:00`; the model normalises the sign so that record equality matches
`OffsetDateTime` equality. -/
def Tm.normOff (t : Tm) : Tm :=
  if t.offHour = 0 ∧ t.offMinute = 0 ∧ t.offSecond = 0 then { t with offNeg := false } else t

/-! ## Decimal digits and the two fixed-width number formats -/

/-- Fueled decimal digit accumulation, as in Rust's integer `Display`. -/
def natCharsAux : Nat → Nat → List Char → List Char
  | 0, _, acc => acc
  | fuel + 1, n, acc =>
    let d := Nat.digitChar (n % 10)
    let n' := n / 10
    if n' = 0 then d :: acc else natCharsAux fuel n' (d :: acc)

/-- Decimal representation of a natural number. -/
def natChars (n : Nat) : List Char := natCharsAux (n + 1) n []

/-- Decimal representation of an `i64` under Rust's `Display`. -/
def intChars (i : Int) : List Char :=
  if i < 0 then '-' :: natChars i.natAbs else natChars i.toNat

/-- Two-digit zero-padded field of the display encoding (every field it is
applied to is at most 99 in any `OffsetDateTime`). -/
def pad2 (n : Nat) : List Char := [Nat.digitChar (n / 10), Nat.digitChar (n % 10)]

/-- Four-digit zero-padded year (non-negative years up to 9999). -/
def pad4 (n : Nat) : List Char :=
  [Nat.digitChar (n / 1000), Nat.digitChar (n / 100 % 10),
   Nat.digitChar (n / 10 % 10), Nat.digitChar (n % 10)]

/-! ## `display_duration` -/

/-- `Vec::join(", ")`. -/
def joinSep (sep : List Char) : List (List Char) → List Char
  | [] => []
  | [x] => x
  | x :: xs => x ++ sep ++ joinSep sep xs

/-- Shallow embedding of `display_duration` (src/main.rs:394-418) on a
whole-second duration.  `minutes`/`hours` use Rust's truncating `/`; the
singular/plural tests compare the undecomposed totals with 1 exactly as
the source's `cmp(&1)` match does; `is_negative() || is_zero()` on a
whole-second duration is `d ≤ 0`. -/
def display_duration (d : Int) : List Char :=
  let seconds := d
  let minutes := seconds.tdiv 60
  let hours := seconds.tdiv (60 * 60)
  let c1 : List (List Char) :=
    if hours = 1 then ["1 hour".data]
    else if 1 < hours then [intChars hours ++ " hours".data]
    else []
  let c2 : List (List Char) :=
    if minutes = 1 then ["1 minute".data]
    else if 1 < minutes then [intChars (minutes.tmod 60) ++ " minutes".data]
    else []
  let c3 : List (List Char) :=
    if seconds = 1 then ["1 second".data]
    else if 1 < seconds then [intChars (seconds.tmod 60) ++ " seconds".data]
    else []
  let c4 : List (List Char) := if d ≤ 0 then ["N/A".data] else []
  joinSep ", ".data (c1 ++ c2 ++ c3 ++ c4)

/-! ## The display timestamp encoding `TIMESTAMP_FMT` -/

/-- Formatting a timestamp with
`[month]-[day]-[year] [hour]:[minute]:[second] (UTC[offset_hour sign:mandatory]:[offset_second])`. -/
def formatTs (t : Tm) : List Char :=
  pad2 t.month ++ '-' :: pad2 t.day ++ '-' :: pad4 t.year ++ ' ' ::
  pad2 t.hour ++ ':' :: pad2 t.minute ++ ':' :: pad2 t.second ++
  ' ' :: '(' :: 'U' :: 'T' :: 'C' :: (if t.offNeg then '-' else '+') ::
  pad2 t.offHour ++ ':' :: pad2 t.offSecond ++ [')']

/-! ## `str::lines` (used by `parse_log_fmtd` over the edited text) -/

/-- Rust strips a `'\r'` from a line only when the terminating `'\n'` was
also stripped, i.e. never from a final unterminated segment. -/
def stripCr (l : List Char) : List Char :=
  if l.getLast? = some '\r' then l.dropLast else l

/-- Accumulating worker for `rustLines`. -/
def linesGo (cur : List Char) : List Char → List (List Char)
  | [] => if cur = [] then [] else [cur]
  | c :: rest =>
    if c = '\n' then stripCr cur :: linesGo [] rest else linesGo (cur ++ [c]) rest

/-- Shallow embedding of Rust's `str::lines`: split at `'\n'` (stripping a
preceding `'\r'`), the final line terminator optional, trailing empty
segment dropped. -/
def rustLines (cs : List Char) : List (List Char) := linesGo [] cs

/-! ## `LOG_LINE_REGEX` as a recognizer

The regex (src/main.rs:338-340) is

`(?P<start>TS) -> (?:(?P<end_time>TS)|(?P<end_current>\[now\](\s+))) \([0-9a-z, ]*\)(?:: (?P<message>.*))?`

where `TS` is `[0-9]{2}-[0-9]{2}-[0-9]{4} [0-9]{2}:[0-9]{2}:[0-9]{2} \(UTC[-+][0-9]{2}:[0-9]{2}\)`.

`Regex::captures` finds the leftmost match, the match need not span the
whole line, and `[now]` must be followed by at least one `\s` character
and then the literal space that separates the alternation from `\(`.
Since the numeric captures are re-parsed by `OffsetDateTime::parse` with
the exact same field layout, the recognizer returns the numeric field
values directly; `parseTsValidated` below models the calendar validation
that `OffsetDateTime::parse` performs on them. -/

/-- Captures of `LOG_LINE_REGEX` relevant to `parse_log_fmtd`. -/
structure Caps where
  start : Tm
  endTime : Option Tm
  endCurrent : Bool
  message : Option (List Char)
deriving DecidableEq, Repr

/-- Consume one expected literal character. -/
def ch (c : Char) : List Char → Option (List Char)
  | [] => none
  | x :: r => if x = c then some r else none

/-- Consume `[0-9]{2}` and return its value. -/
def d2 : List Char → Option (Nat × List Char)
  | a :: b :: r =>
    if a.isDigit && b.isDigit then some ((a.toNat - 48) * 10 + (b.toNat - 48), r)
    else none
  | _ => none

/-- Consume `[0-9]{4}` and return its value. -/
def d4 (cs : List Char) : Option (Nat × List Char) := do
  let (hi, r) ← d2 cs
  let (lo, r) ← d2 r
  pure (hi * 100 + lo, r)

/-- Consume `[-+]`, returning `true` for `-`. -/
def psign : List Char → Option (Bool × List Char)
  | '-' :: r => some (true, r)
  | '+' :: r => some (false, r)
  | _ => none

/-- Recognize `[0-9]{2}-[0-9]{2}-[0-9]{4}`. -/
def pDate (cs : List Char) : Option (Nat × Nat × Nat × List Char) := do
  let (mo, r) ← d2 cs
  let r ← ch '-' r
  let (dy, r) ← d2 r
  let r ← ch '-' r
  let (yr, r) ← d4 r
  pure (mo, dy, yr, r)

/-- Recognize `[0-9]{2}:[0-9]{2}:[0-9]{2}`. -/
def pTime (cs : List Char) : Option (Nat × Nat × Nat × List Char) := do
  let (hh, r) ← d2 cs
  let r ← ch ':' r
  let (mi, r) ← d2 r
  let r ← ch ':' r
  let (ss, r) ← d2 r
  pure (hh, mi, ss, r)

/-- Recognize `\(UTC[-+][0-9]{2}:[0-9]{2}\)`. -/
def pOff (cs : List Char) : Option (Bool × Nat × Nat × List Char) := do
  let r ← ch '(' cs
  let r ← ch 'U' r
  let r ← ch 'T' r
  let r ← ch 'C' r
  let (sg, r) ← psign r
  let (oh, r) ← d2 r
  let r ← ch ':' r
  let (os, r) ← d2 r
  let r ← ch ')' r
  pure (sg, oh, os, r)

/-- Recognize the timestamp pattern `TS` of the regex, returning the
numeric fields.  The pattern (like `TIMESTAMP_FMT`) carries no
offset-minute field, so `OffsetDateTime::parse` defaults that component
to zero. -/
def pTs (cs : List Char) : Option (Tm × List Char) := do
  let (mo, dy, yr, r) ← pDate cs
  let r ← ch ' ' r
  let (hh, mi, ss, r) ← pTime r
  let r ← ch ' ' r
  let (sg, oh, os, r) ← pOff r
  pure (⟨mo, dy, yr, hh, mi, ss, sg, oh, 0, os⟩, r)

/-- The character class `[0-9a-z, ]` of the duration annotation. -/
def isDurC (c : Char) : Bool :=
  c.isDigit || ('a' ≤ c && c ≤ 'z') || c = ',' || c = ' '

/-- ASCII whitespace matched by the regex class `\s`. -/
def isWs (c : Char) : Bool :=
  c = ' ' || c = '\t' || c = '\n' || c = '\r' || c = '\x0b' || c = '\x0c'

/-- Shared tail of both alternation branches: `\([0-9a-z, ]*\)` followed by
the optional `(?:: (?P<message>.*))?` (the match may end before the end of
the line).  `r` starts right after the opening parenthesis. -/
def finishCaps (st : Tm) (et : Option Tm) (cur : Bool) (r : List Char) : Option Caps :=
  match r.dropWhile isDurC with
  | ')' :: rest =>
    let msg : Option (List Char) :=
      match rest with
      | ':' :: ' ' :: m => some m
      | _ => none
    some ⟨st, et, cur, msg⟩
  | _ => none

/-- Recognize the literal ` -> ` separator. -/
def pArrow (cs : List Char) : Option (List Char) := do
  let r ← ch ' ' cs
  let r ← ch '-' r
  let r ← ch '>' r
  ch ' ' r

/-- Recognize `\[now\](\s+)` followed by the alternation's trailing
space and `\(`: the whitespace run after `[now]` must contain at least
one `\s` for the group plus the literal space, which the backtracking
regex engine places last, directly before `(`.  Returns the rest after
the opening parenthesis. -/
def pNowTail (cs : List Char) : Option (List Char) := do
  let r ← ch '[' cs
  let r ← ch 'n' r
  let r ← ch 'o' r
  let r ← ch 'w' r
  let r ← ch ']' r
  let w := r.takeWhile isWs
  if 2 ≤ w.length ∧ w.getLast? = some ' ' then ch '(' (r.dropWhile isWs)
  else none

/-- Attempt to match the regex starting exactly at `cs`. -/
def tryAt (cs : List Char) : Option Caps := do
  let (st, r) ← pTs cs
  let r ← pArrow r
  match pTs r with
  | some (et, r2) => do
    let r3 ← ch ' ' r2
    let r4 ← ch '(' r3
    finishCaps st (some et) false r4
  | none => do
    let r4 ← pNowTail r
    finishCaps st none true r4

/-- `LOG_LINE_REGEX.captures(line)`: leftmost match anywhere in the line. -/
def matchLine : List Char → Option Caps
  | [] => none
  | c :: rest =>
    match tryAt (c :: rest) with
    | some caps => some caps
    | none => matchLine rest

/-! ## `parse_log_fmtd` -/

instance {ε α : Type} [DecidableEq ε] [DecidableEq α] : DecidableEq (Except ε α) := fun
  | .error a, .error b =>
    if h : a = b then .isTrue (by rw [h]) else .isFalse (by intro c; cases c; exact h rfl)
  | .ok a, .ok b =>
    if h : a = b then .isTrue (by rw [h]) else .isFalse (by intro c; cases c; exact h rfl)
  | .error _, .ok _ => .isFalse (by intro c; cases c)
  | .ok _, .error _ => .isFalse (by intro c; cases c)

/-- `OffsetDateTime::parse(_, TIMESTAMP_FMT)` on a capture that already
matched the structural pattern: calendar/range validation plus
normalisation of the sign of a zero offset. -/
def parseTsValidated (t : Tm) : Except String Tm :=
  if t.validB then .ok t.normOff else .error "Failed to parse timestamp"

/-- One iteration of the `for line in fmtd.lines()` loop of
`parse_log_fmtd` (src/main.rs:348-389). -/
def procLine (log : Log) (line : List Char) : Except String Log :=
  if line.head? = some '#' ∨ line = [] then .ok log
  else
    match matchLine line with
    | none => .error "Failed to parse log line"
    | some caps =>
      if caps.endCurrent && caps.message.isSome then
        .error "Log lines must not have a message if they are current."
      else if caps.endCurrent then
        if log.current.isSome then
          .error "There can only be one current log line."
        else do
          let st ← parseTsValidated caps.start
          .ok { log with current := some ⟨st, none, none⟩ }
      else
        match caps.endTime with
        | some et =>
          if caps.message.isNone then
            .error "A completed log must have a message."
          else do
            let st ← parseTsValidated caps.start
            let en ← parseTsValidated et
            .ok { log with completed := log.completed ++
                    [⟨st, some en, caps.message.getD []⟩] }
        | none => .ok log

/-- Shallow embedding of `parse_log_fmtd` (src/main.rs:343-392). -/
def parse_log_fmtd (fmtd : List Char) : Except String Log :=
  (rustLines fmtd).foldlM procLine ⟨[], none⟩

/-! ## `format_log` -/

/-- The line `format_log` writes for a completed session, without its
trailing newline (`"{} -> {} ({}): {}"`). -/
def completedLine (start stop : Tm) (msg : List Char) : List Char :=
  formatTs start ++ ' ' :: '-' :: '>' :: ' ' :: formatTs stop ++
  ' ' :: '(' :: display_duration (epochSecs stop - epochSecs start) ++
  ')' :: ':' :: ' ' :: msg

/-- The line `format_log` writes for the current session, without its
trailing newline: `"{} -> [now]                           ({})"`
(27 spaces of fixed padding), the duration computed against `now`. -/
def currentLine (start : Tm) (now : Int) : List Char :=
  formatTs start ++ ' ' :: '-' :: '>' :: ' ' :: '[' :: 'n' :: 'o' :: 'w' :: ']' ::
  (List.replicate 27 ' ' ++ '(' :: display_duration (now - epochSecs start) ++ [')'])

/-- One `writeln!` of the completed-session loop of `format_log`:
the line plus its newline, `None` when an `unwrap()` would panic. -/
def fmtSession (s : Session) : Option (List Char) := do
  let e ← s.stop
  let m ← s.message
  pure (completedLine s.start e m ++ ['\n'])

/-- Shallow embedding of `format_log` (src/main.rs:311-335).  The
`unwrap()`s on `end` and `message` of completed sessions are modelled by
the `Option` result; `now : Int` is the epoch instant `get_time()`
returns while formatting the current session's fresh duration. -/
def format_log (log : Log) (now : Int) : Option (List Char) := do
  let ls ← log.completed.mapM fmtSession
  let cur : List Char :=
    match log.current with
    | some c => currentLine c.start now ++ ['\n']
    | none => []
  pure (ls.flatten ++ cur)

/-- A completed session the round-trip theorem applies to: it satisfies
the `Log` invariants (an `end` and a message), its timestamps are in
range, canonically signed and have a zero offset-minute component (the
display encoding prints only the offset's hour and second fields, so a
nonzero offset-minute such as `+05:30` is silently reparsed as
`+05:00`), its message is a single line that does not end in a carriage
return, and its elapsed time is at least one second (a zero or negative
duration renders as `N/A`, which the parser's duration pattern
`[0-9a-z, ]*` rejects). -/
def sessionOk (s : Session) : Prop :=
  ∃ e m, s.stop = some e ∧ s.message = some m ∧
    s.start.validB = true ∧ s.start.canonical ∧ s.start.offMinute = 0 ∧
    e.validB = true ∧ e.canonical ∧ e.offMinute = 0 ∧
    '\n' ∉ m ∧ m.getLast? ≠ some '\r' ∧ 1 ≤ epochSecs e - epochSecs s.start

/-- The current session the round-trip theorem applies to: no `end`, no
message, an in-range canonically-signed start whose offset has a zero
minute component, and a strictly positive elapsed time against the
formatting instant `now`. -/
def currentOk (now : Int) (s : Session) : Prop :=
  s.stop = none ∧ s.message = none ∧ s.start.validB = true ∧ s.start.canonical ∧
    s.start.offMinute = 0 ∧ 1 ≤ now - epochSecs s.start

/-! ## `Commands::Status` aggregation -/

/-- `(dayNumber + 6) % 7` is the weekday as days from Sunday (day 0 of the
proleptic Gregorian calendar, `0000-01-01`, was a Saturday). -/
def daysFromSunday (t : Tm) : Nat := (dayNumber t.year t.month t.day + 6) % 7

/-- The `time` crate's `sunday_based_week`: the week number within the
year, week 1 beginning at the first Sunday (week 0 before it). -/
def sundayBasedWeek (t : Tm) : Nat :=
  (ordinalDay t.year t.month t.day + 6 - daysFromSunday t) / 7

/-- `start.date() == today`: `Date` equality is equality of the calendar
day in the timestamp's own offset. -/
def sameDate (a b : Tm) : Bool :=
  a.year == b.year && a.month == b.month && a.day == b.day

/-- The loop of `Commands::Status` (src/main.rs:182-197) accumulating
`(elapsed_total, elapsed_today, elapsed_thisweek)`; the `unwrap()` on
`session.end` is modelled by the `Option` result.  `now` stands for the
value `get_time()` returns (the source calls it twice for `today` and
`thisweek`; both model the same instant). -/
def statusLoop (now : Tm) (acc : Int × Int × Int) : List Session → Option (Int × Int × Int)
  | [] => some acc
  | s :: rest => do
    let e ← s.stop
    let d := epochSecs e - epochSecs s.start
    let t := acc.1 + d
    let td := if sameDate s.start now && sameDate e now then acc.2.1 + d else acc.2.1
    let tw := if sundayBasedWeek s.start == sundayBasedWeek now
                 && sundayBasedWeek e == sundayBasedWeek now then acc.2.2 + d
              else acc.2.2
    statusLoop now (t, td, tw) rest

/-- Status totals over the completed sessions. -/
def statusTotals (l : List Session) (now : Tm) : Option (Int × Int × Int) :=
  statusLoop now (0, 0, 0) l

/-- Elapsed whole seconds `end - start` of a session (`start` standing in
for a missing `end`, which `Commands::Status` would `unwrap()`-panic on). -/
def sessDur (s : Session) : Int := epochSecs (s.stop.getD s.start) - epochSecs s.start

/-- The specification's week criterion, for comparison with the code: two
timestamps lie in the same calendar week if they agree on the
Sunday-based week number and on the year. -/
def specSameWeek (a b : Tm) : Bool :=
  a.year == b.year && sundayBasedWeek a == sundayBasedWeek b

/-! ## `Commands::Csv` -/

/-- Civil date from a day number (days since `0000-01-01`), the inverse
calendar conversion the `time` crate performs for `to_offset`; returns
`(year, month, day)`. -/
def civilFromDayNumber (z : Int) : Int × Nat × Nat :=
  let zs := z - 60
  let era := zs.fdiv 146097
  let doe := (zs.fmod 146097).toNat
  let yoe := (doe - doe / 1461 + doe / 36524 - doe / 146096) / 365
  let doy := doe - (365 * yoe + yoe / 4 - yoe / 100)
  let mp := (5 * doy + 2) / 153
  let d := doy - (153 * mp + 2) / 5 + 1
  let m := if mp < 10 then mp + 3 else mp - 9
  let y := (yoe : Int) + era * 400 + (if m ≤ 2 then 1 else 0)
  (y, m, d)

/-- Four-digit year with a sign for negative years. -/
def pad4i (y : Int) : List Char :=
  if y < 0 then '-' :: pad4 y.natAbs else pad4 y.toNat

/-- `CSV_TIMESTAMP_FMT` (`[year]-[month]-[day]T[hour]:[minute]:[second]`)
applied to an instant converted `to_offset(UTC)`. -/
def csvTs (secs : Int) : List Char :=
  let days := secs.fdiv 86400
  let sod := (secs.fmod 86400).toNat
  let (y, m, d) := civilFromDayNumber days
  pad4i y ++ '-' :: pad2 m ++ '-' :: pad2 d ++ 'T' ::
  pad2 (sod / 3600) ++ ':' :: pad2 (sod / 60 % 60) ++ ':' :: pad2 (sod % 60)

/-- One CSV data row: `(UTC start, UTC end, hours, minutes % 60,
seconds % 60, message)` with `seconds = (end - start).whole_seconds()`,
`minutes = seconds / 60`, `hours = seconds / 3600` (src/main.rs:284-300). -/
def csvRow (s : Session) : Option (List Char × List Char × Int × Int × Int × List Char) := do
  let e ← s.stop
  let m ← s.message
  let seconds := epochSecs e - epochSecs s.start
  let minutes := seconds.tdiv 60
  let hours := seconds.tdiv (60 * 60)
  pure (csvTs (epochSecs s.start), csvTs (epochSecs e), hours,
        minutes.tmod 60, seconds.tmod 60, m)

/-- The data rows `Commands::Csv` serializes, in completed-session order
(the header row and the `csv` crate's encoding to text are external). -/
def csvRows (log : Log) : Option (List (List Char × List Char × Int × Int × Int × List Char)) :=
  log.completed.mapM csvRow

/-! ## `Commands::Begin` -/

/-- Shallow embedding of `Commands::Begin` (src/main.rs:129-144): the
resulting log, paired with `true` when the "already a current session"
error was reported. -/
def beginCmd (log : Log) (now : Tm) : Log × Bool :=
  match log.current with
  | some _ => (log, true)
  | none => ({ log with current := some ⟨now, none, none⟩ }, false)



/-! ## Basic lemmas: digits and the timestamp pattern -/

theorem digitChar_spec : ∀ m < 10, (Nat.digitChar m).isDigit = true ∧ (Nat.digitChar m).toNat = 48 + m := by
  decide

theorem digitChar_star (m : Nat) (h : 16 ≤ m) : Nat.digitChar m = '*' := by
  unfold Nat.digitChar
  repeat rw [if_neg (by omega)]

theorem digitChar_ne (m : Nat) :
    Nat.digitChar m ≠ '\n' ∧ Nat.digitChar m ≠ '\r' ∧ Nat.digitChar m ≠ '#' := by
  rcases Nat.lt_or_ge m 16 with h | h
  · interval_cases m <;> exact ⟨by decide, by decide, by decide⟩
  · rw [digitChar_star m h]
    exact ⟨by decide, by decide, by decide⟩

theorem ch_cons (c : Char) (r : List Char) : ch c (c :: r) = some r := by
  simp [ch]

theorem d2_pad2 (n : Nat) (r : List Char) (h : n < 100) : d2 (pad2 n ++ r) = some (n, r) := by
  obtain ⟨ha, ha'⟩ := digitChar_spec (n / 10) (by omega)
  obtain ⟨hb, hb'⟩ := digitChar_spec (n % 10) (by omega)
  simp only [pad2, List.cons_append, List.nil_append, d2, ha, hb, ha', hb',
    Bool.and_self, if_true]
  congr 1
  congr 1
  omega

theorem d4_pad4 (n : Nat) (r : List Char) (h : n < 10000) : d4 (pad4 n ++ r) = some (n, r) := by
  have h1 : pad4 n ++ r = pad2 (n / 100) ++ (pad2 (n % 100) ++ r) := by
    simp only [pad4, pad2, List.cons_append, List.nil_append]
    have e1 : n / 100 / 10 = n / 1000 := by omega
    have e3 : n % 100 / 10 = n / 10 % 10 := by omega
    have e4 : n % 100 % 10 = n % 10 := by omega
    rw [e1, e3, e4]
  rw [h1, d4]
  simp only [Option.bind_eq_bind]
  rw [d2_pad2 _ _ (by omega)]
  simp only [Option.some_bind]
  rw [d2_pad2 _ _ (by omega)]
  simp only [Option.some_bind, Option.pure_def]
  congr 2
  omega

theorem psign_if (b : Bool) (r : List Char) : psign ((if b then '-' else '+') :: r) = some (b, r) := by
  cases b <;> rfl

theorem daysInMonth_ge13 (y m : Nat) (h : 13 ≤ m) : daysInMonth y m = 0 := by
  unfold daysInMonth
  rw [if_neg (show ¬(m = 1) by omega), if_neg (show ¬(m = 2) by omega),
    if_neg (show ¬(m = 3) by omega), if_neg (show ¬(m = 4) by omega),
    if_neg (show ¬(m = 5) by omega), if_neg (show ¬(m = 6) by omega),
    if_neg (show ¬(m = 7) by omega), if_neg (show ¬(m = 8) by omega),
    if_neg (show ¬(m = 9) by omega), if_neg (show ¬(m = 10) by omega),
    if_neg (show ¬(m = 11) by omega), if_neg (show ¬(m = 12) by omega)]

theorem daysInMonth_le (y m : Nat) : daysInMonth y m ≤ 31 := by
  rcases Nat.lt_or_ge m 13 with h | h
  · interval_cases m <;> simp [daysInMonth] <;> split_ifs <;> omega
  · rw [daysInMonth_ge13 y m h]
    omega

theorem pDate_format (mo dy yr : Nat) (r : List Char)
    (h1 : mo < 100) (h2 : dy < 100) (h3 : yr < 10000) :
    pDate (pad2 mo ++ '-' :: (pad2 dy ++ '-' :: (pad4 yr ++ r))) = some (mo, dy, yr, r) := by
  rw [pDate]
  simp only [Option.bind_eq_bind]
  rw [d2_pad2 _ _ h1]
  simp only [Option.some_bind]
  rw [ch_cons]
  simp only [Option.some_bind]
  rw [d2_pad2 _ _ h2]
  simp only [Option.some_bind]
  rw [ch_cons]
  simp only [Option.some_bind]
  rw [d4_pad4 _ _ h3]
  simp only [Option.some_bind, Option.pure_def]

theorem pTime_format (hh mi ss : Nat) (r : List Char)
    (h1 : hh < 100) (h2 : mi < 100) (h3 : ss < 100) :
    pTime (pad2 hh ++ ':' :: (pad2 mi ++ ':' :: (pad2 ss ++ r))) = some (hh, mi, ss, r) := by
  rw [pTime]
  simp only [Option.bind_eq_bind]
  rw [d2_pad2 _ _ h1]
  simp only [Option.some_bind]
  rw [ch_cons]
  simp only [Option.some_bind]
  rw [d2_pad2 _ _ h2]
  simp only [Option.some_bind]
  rw [ch_cons]
  simp only [Option.some_bind]
  rw [d2_pad2 _ _ h3]
  simp only [Option.some_bind, Option.pure_def]

theorem pOff_format (b : Bool) (oh os : Nat) (r : List Char)
    (h1 : oh < 100) (h2 : os < 100) :
    pOff ('(' :: 'U' :: 'T' :: 'C' :: (if b then '-' else '+') ::
      (pad2 oh ++ ':' :: (pad2 os ++ ')' :: r))) = some (b, oh, os, r) := by
  rw [pOff]
  simp only [Option.bind_eq_bind]
  rw [ch_cons]
  simp only [Option.some_bind]
  rw [ch_cons]
  simp only [Option.some_bind]
  rw [ch_cons]
  simp only [Option.some_bind]
  rw [ch_cons]
  simp only [Option.some_bind]
  rw [psign_if]
  simp only [Option.some_bind]
  rw [d2_pad2 _ _ h1]
  simp only [Option.some_bind]
  rw [ch_cons]
  simp only [Option.some_bind]
  rw [d2_pad2 _ _ h2]
  simp only [Option.some_bind]
  rw [ch_cons]
  simp only [Option.some_bind, Option.pure_def]

theorem validB_bounds (t : Tm) (h : t.validB = true) :
    t.month < 100 ∧ t.day < 100 ∧ t.year < 10000 ∧ t.hour < 100 ∧ t.minute < 100 ∧
    t.second < 100 ∧ t.offHour < 100 ∧ t.offSecond < 100 := by
  unfold Tm.validB at h
  simp only [Bool.and_eq_true, decide_eq_true_eq] at h
  have hd := daysInMonth_le t.year t.month
  omega

theorem pTs_format (t : Tm) (r : List Char) (h : t.validB = true)
    (hm : t.offMinute = 0) :
    pTs (formatTs t ++ r) = some (t, r) := by
  obtain ⟨b1, b2, b3, b4, b5, b6, b7, b8⟩ := validB_bounds t h
  rw [formatTs]
  simp only [List.append_assoc, List.cons_append, List.nil_append]
  rw [pTs]
  simp only [Option.bind_eq_bind]
  rw [pDate_format _ _ _ _ b1 b2 b3]
  simp only [Option.some_bind]
  rw [ch_cons]
  simp only [Option.some_bind]
  rw [pTime_format _ _ _ _ b4 b5 b6]
  simp only [Option.some_bind]
  rw [ch_cons]
  simp only [Option.some_bind]
  rw [pOff_format _ _ _ _ b7 b8]
  simp only [Option.some_bind, Option.pure_def]
  rw [← hm]

/-! ## Character classes of formatted output -/

theorem digitChar_durC : ∀ m < 10, isDurC (Nat.digitChar m) = true := by
  decide

theorem natCharsAux_durC (fuel : Nat) :
    ∀ n acc, (∀ c ∈ acc, isDurC c = true) → ∀ c ∈ natCharsAux fuel n acc, isDurC c = true := by
  induction fuel with
  | zero => intro n acc h c hc; exact h c hc
  | succ f ih =>
    intro n acc h c hc
    simp only [natCharsAux] at hc
    have hacc : ∀ c ∈ Nat.digitChar (n % 10) :: acc, isDurC c = true := by
      intro c' hc'
      rcases List.mem_cons.mp hc' with h1 | h2
      · rw [h1]; exact digitChar_durC (n % 10) (Nat.mod_lt _ (by omega))
      · exact h c' h2
    by_cases h0 : n / 10 = 0
    · rw [if_pos h0] at hc
      exact hacc c hc
    · rw [if_neg h0] at hc
      exact ih (n / 10) _ hacc c hc

theorem natChars_durC (n : Nat) : ∀ c ∈ natChars n, isDurC c = true :=
  natCharsAux_durC (n + 1) n [] (by intro c hc; cases hc)

theorem intChars_durC (i : Int) (h : 0 ≤ i) : ∀ c ∈ intChars i, isDurC c = true := by
  unfold intChars
  rw [if_neg (by omega)]
  exact natChars_durC _

theorem joinSep_cons2 (sep x y : List Char) (ys : List (List Char)) :
    joinSep sep (x :: y :: ys) = x ++ sep ++ joinSep sep (y :: ys) := rfl

theorem joinSep_mem (sep : List Char) (P : Char → Prop) (hs : ∀ c ∈ sep, P c) :
    ∀ ls : List (List Char), (∀ l ∈ ls, ∀ c ∈ l, P c) → ∀ c ∈ joinSep sep ls, P c := by
  intro ls
  induction ls with
  | nil => intro _ c hc; simp [joinSep] at hc
  | cons x xs ih =>
    intro h c hc
    cases xs with
    | nil =>
      simp only [joinSep] at hc
      exact h x (by simp) c hc
    | cons y ys =>
      rw [joinSep_cons2] at hc
      rcases List.mem_append.mp hc with h1 | h2
      · rcases List.mem_append.mp h1 with h3 | h4
        · exact h x (by simp) c h3
        · exact hs c h4
      · exact ih (fun l hl => h l (List.mem_cons_of_mem _ hl)) c h2

theorem display_duration_durC (d : Int) (h : 1 ≤ d) :
    ∀ c ∈ display_duration d, isDurC c = true := by
  simp only [display_duration]
  rw [if_neg (show ¬ d ≤ 0 by omega)]
  intro c hc
  refine joinSep_mem ", ".data (fun c => isDurC c = true) (by decide) _ ?_ c hc
  intro l hl c hc
  simp only [List.append_nil, List.mem_append] at hl
  have hnonneg : ∀ (a b : Int), 1 < a → 0 ≤ a.tmod b := fun a b ha =>
    Int.tmod_nonneg b (by omega)
  rcases hl with (h1 | h2) | h3
  · split_ifs at h1 with e1 e2
    · simp only [List.mem_singleton] at h1
      subst h1
      exact (show ∀ x ∈ "1 hour".data, isDurC x = true by decide) c hc
    · simp only [List.mem_singleton] at h1
      subst h1
      rcases List.mem_append.mp hc with ha | hb
      · exact intChars_durC _ (by omega) c ha
      · exact (show ∀ x ∈ " hours".data, isDurC x = true by decide) c hb
    · simp at h1
  · split_ifs at h2 with e1 e2
    · simp only [List.mem_singleton] at h2
      subst h2
      exact (show ∀ x ∈ "1 minute".data, isDurC x = true by decide) c hc
    · simp only [List.mem_singleton] at h2
      subst h2
      rcases List.mem_append.mp hc with ha | hb
      · exact intChars_durC _ (hnonneg _ _ e2) c ha
      · exact (show ∀ x ∈ " minutes".data, isDurC x = true by decide) c hb
    · simp at h2
  · split_ifs at h3 with e1 e2
    · simp only [List.mem_singleton] at h3
      subst h3
      exact (show ∀ x ∈ "1 second".data, isDurC x = true by decide) c hc
    · simp only [List.mem_singleton] at h3
      subst h3
      rcases List.mem_append.mp hc with ha | hb
      · exact intChars_durC _ (hnonneg _ _ e2) c ha
      · exact (show ∀ x ∈ " seconds".data, isDurC x = true by decide) c hb
    · simp at h3

theorem dropWhile_all_append (p : Char → Bool) (l r : List Char)
    (h : ∀ c ∈ l, p c = true) :
    List.dropWhile p (l ++ r) = List.dropWhile p r := by
  induction l with
  | nil => rfl
  | cons c cs ih =>
    simp only [List.cons_append, List.dropWhile_cons, h c (List.mem_cons_self c cs), if_true]
    exact ih (fun c' hc' => h c' (List.mem_cons_of_mem _ hc'))

theorem takeWhile_all_append (p : Char → Bool) (l : List Char) (x : Char) (r : List Char)
    (hl : ∀ c ∈ l, p c = true) (hx : p x = false) :
    List.takeWhile p (l ++ x :: r) = l := by
  induction l with
  | nil => simp [List.takeWhile_cons, hx]
  | cons c cs ih =>
    simp only [List.cons_append, List.takeWhile_cons, hl c (List.mem_cons_self c cs), if_true]
    rw [ih (fun c' hc' => hl c' (List.mem_cons_of_mem _ hc'))]

theorem dropWhile_stop (p : Char → Bool) (l : List Char) (x : Char) (r : List Char)
    (hl : ∀ c ∈ l, p c = true) (hx : p x = false) :
    List.dropWhile p (l ++ x :: r) = x :: r := by
  rw [dropWhile_all_append p l _ hl, List.dropWhile_cons, hx]
  simp

/-! ## `rustLines` on newline-terminated output -/

theorem stripCr_eq (l : List Char) (h : l.getLast? ≠ some '\r') : stripCr l = l := by
  unfold stripCr
  rw [if_neg h]

theorem linesGo_line (l rest : List Char) (h : '\n' ∉ l) :
    ∀ cur, linesGo cur (l ++ '\n' :: rest) = stripCr (cur ++ l) :: linesGo [] rest := by
  induction l with
  | nil => intro cur; simp [linesGo]
  | cons c cs ih =>
    intro cur
    have hc : ¬(c = '\n') := fun e => h (by rw [e]; exact List.mem_cons_self _ _)
    simp only [List.cons_append, linesGo, if_neg hc, List.append_eq]
    rw [ih (fun hm => h (List.mem_cons_of_mem _ hm)) (cur ++ [c])]
    simp [List.append_assoc]

theorem rustLines_line (l rest : List Char) (h : '\n' ∉ l) :
    rustLines (l ++ '\n' :: rest) = stripCr l :: rustLines rest := by
  unfold rustLines
  rw [linesGo_line l rest h []]
  simp

/-! ## Matching the formatter's own lines -/

theorem pArrow_cons (r : List Char) : pArrow (' ' :: '-' :: '>' :: ' ' :: r) = some r := rfl

theorem pTs_lbrack (x : List Char) : pTs ('[' :: x) = none := by
  cases x <;> rfl

theorem matchLine_of_tryAt (cs : List Char) (caps : Caps) (h : tryAt cs = some caps) :
    matchLine cs = some caps := by
  cases cs with
  | nil => rw [show tryAt ([] : List Char) = none from rfl] at h; cases h
  | cons c rest => simp [matchLine, h]

theorem tryAt_completedLine (t1 t2 : Tm) (msg : List Char)
    (h1 : t1.validB = true) (hm1 : t1.offMinute = 0)
    (h2 : t2.validB = true) (hm2 : t2.offMinute = 0)
    (hd : 1 ≤ epochSecs t2 - epochSecs t1) :
    tryAt (completedLine t1 t2 msg) = some ⟨t1, some t2, false, some msg⟩ := by
  rw [completedLine, tryAt]
  simp only [Option.bind_eq_bind, List.append_assoc, List.cons_append, List.append_eq,
    List.nil_append]
  rw [pTs_format t1 _ h1 hm1]
  simp only [Option.some_bind]
  rw [pArrow_cons]
  simp only [Option.some_bind]
  rw [pTs_format t2 _ h2 hm2]
  dsimp only
  rw [ch_cons]
  simp only [Option.some_bind]
  rw [ch_cons]
  simp only [Option.some_bind]
  rw [finishCaps]
  rw [dropWhile_stop _ _ _ _ (display_duration_durC _ hd) (by decide)]
  rfl

theorem replicate_ws (n : Nat) : ∀ c ∈ List.replicate n ' ', isWs c = true := by
  intro c hc
  rw [List.eq_of_mem_replicate hc]
  decide

theorem tryAt_currentLine (t : Tm) (now : Int)
    (h1 : t.validB = true) (hm1 : t.offMinute = 0) (hd : 1 ≤ now - epochSecs t) :
    tryAt (currentLine t now) = some ⟨t, none, true, none⟩ := by
  rw [currentLine, tryAt]
  simp only [Option.bind_eq_bind, List.append_assoc, List.cons_append, List.append_eq,
    List.nil_append]
  rw [pTs_format t _ h1 hm1]
  simp only [Option.some_bind]
  rw [pArrow_cons]
  simp only [Option.some_bind]
  rw [pTs_lbrack]
  rw [pNowTail]
  simp only [Option.bind_eq_bind]
  rw [ch_cons]
  simp only [Option.some_bind]
  rw [ch_cons]
  simp only [Option.some_bind]
  rw [ch_cons]
  simp only [Option.some_bind]
  rw [ch_cons]
  simp only [Option.some_bind]
  rw [ch_cons]
  simp only [Option.some_bind]
  rw [takeWhile_all_append isWs _ '(' _ (replicate_ws 27) (by decide)]
  rw [dropWhile_stop isWs _ '(' _ (replicate_ws 27) (by decide)]
  rw [if_pos (by constructor <;> decide)]
  rw [ch_cons]
  simp only [Option.some_bind]
  rw [finishCaps]
  rw [show display_duration (now - epochSecs t) ++ [')'] =
        display_duration (now - epochSecs t) ++ ')' :: [] from rfl]
  rw [dropWhile_stop _ _ _ _ (display_duration_durC _ hd) (by decide)]
  rfl

/-! ## `procLine` on the formatter's lines -/

theorem Tm.normOff_eq (t : Tm) (h : t.canonical) : t.normOff = t := by
  unfold Tm.normOff
  split_ifs with h0
  · cases ht : t.offNeg
    · cases t
      simp_all
    · exact absurd h0 (h ht)
  · rfl

theorem parseTsValidated_ok (t : Tm) (h : t.validB = true) (hc : t.canonical) :
    parseTsValidated t = .ok t := by
  unfold parseTsValidated
  rw [if_pos h, Tm.normOff_eq t hc]

theorem completedLine_head (t1 t2 : Tm) (msg : List Char) :
    (completedLine t1 t2 msg).head? = some (Nat.digitChar (t1.month / 10)) := by
  rw [completedLine, formatTs]
  simp [pad2]

theorem currentLine_head (t : Tm) (now : Int) :
    (currentLine t now).head? = some (Nat.digitChar (t.month / 10)) := by
  rw [currentLine, formatTs]
  simp [pad2]

theorem not_skip_of_head_digit (line : List Char) (n : Nat)
    (h : line.head? = some (Nat.digitChar n)) :
    ¬(line.head? = some '#' ∨ line = []) := by
  rintro (h1 | h2)
  · rw [h] at h1
    exact (digitChar_ne n).2.2 (Option.some.inj h1)
  · rw [h2] at h
    cases h

theorem procLine_completedLine (lg : Log) (t1 t2 : Tm) (msg : List Char)
    (h1 : t1.validB = true) (hc1 : t1.canonical) (hm1 : t1.offMinute = 0)
    (h2 : t2.validB = true) (hc2 : t2.canonical) (hm2 : t2.offMinute = 0)
    (hd : 1 ≤ epochSecs t2 - epochSecs t1) :
    procLine lg (completedLine t1 t2 msg)
      = .ok { lg with completed := lg.completed ++ [⟨t1, some t2, some msg⟩] } := by
  rw [procLine]
  rw [if_neg (not_skip_of_head_digit _ _ (completedLine_head t1 t2 msg))]
  rw [matchLine_of_tryAt _ _ (tryAt_completedLine t1 t2 msg h1 hm1 h2 hm2 hd)]
  dsimp only
  rw [parseTsValidated_ok t1 h1 hc1, parseTsValidated_ok t2 h2 hc2]
  rfl

theorem procLine_currentLine (lg : Log) (t : Tm) (now : Int)
    (h1 : t.validB = true) (hc1 : t.canonical) (hm1 : t.offMinute = 0)
    (hcur : lg.current = none) (hd : 1 ≤ now - epochSecs t) :
    procLine lg (currentLine t now) = .ok { lg with current := some ⟨t, none, none⟩ } := by
  rw [procLine]
  rw [if_neg (not_skip_of_head_digit _ _ (currentLine_head t now))]
  rw [matchLine_of_tryAt _ _ (tryAt_currentLine t now h1 hm1 hd)]
  dsimp only
  rw [hcur]
  dsimp only [Option.isSome]
  rw [if_neg (by simp)]
  rw [parseTsValidated_ok t h1 hc1]
  rfl

/-! ## Formatted lines contain no newline and no trailing carriage return -/

theorem formatTs_mem (t : Tm) (c : Char) (hc : c ∈ formatTs t) :
    (∃ m, c = Nat.digitChar m) ∨ c ∈ "-: (UTC)+".data := by
  simp only [formatTs, pad2, pad4, List.mem_append, List.mem_cons, List.cons_append,
    List.nil_append, List.mem_singleton, List.not_mem_nil, or_false] at hc
  casesm* _ ∨ _
  all_goals rename_i h
  all_goals
    first
      | exact Or.inl ⟨_, h⟩
      | (rw [h]; right; decide)
      | (rw [h]; cases t.offNeg <;> (right; decide))

theorem formatTs_no_nl (t : Tm) : '\n' ∉ formatTs t := by
  intro h
  rcases formatTs_mem t _ h with ⟨m, e⟩ | h2
  · exact (digitChar_ne m).1 e.symm
  · revert h2
    decide

theorem display_no_nl (d : Int) (hd : 1 ≤ d) : '\n' ∉ display_duration d := by
  intro h
  have h2 := display_duration_durC d hd _ h
  revert h2
  decide

theorem completedLine_no_nl (t1 t2 : Tm) (msg : List Char)
    (hm : '\n' ∉ msg) (hd : 1 ≤ epochSecs t2 - epochSecs t1) :
    '\n' ∉ completedLine t1 t2 msg := by
  intro h
  rw [completedLine] at h
  simp only [List.mem_append, List.mem_cons] at h
  casesm* _ ∨ _
  all_goals rename_i h
  all_goals
    first
      | exact formatTs_no_nl t1 h
      | exact formatTs_no_nl t2 h
      | exact display_no_nl _ hd h
      | exact hm h
      | exact absurd h (by decide)

theorem currentLine_no_nl (t : Tm) (now : Int) (hd : 1 ≤ now - epochSecs t) :
    '\n' ∉ currentLine t now := by
  intro h
  rw [currentLine] at h
  simp only [List.mem_append, List.mem_cons, List.mem_singleton] at h
  casesm* _ ∨ _
  all_goals rename_i h
  all_goals
    first
      | exact formatTs_no_nl t h
      | exact display_no_nl _ hd h
      | exact absurd h (by decide)
      | exact absurd (List.eq_of_mem_replicate h) (by decide)

theorem completedLine_last (t1 t2 : Tm) (msg : List Char)
    (hm : msg.getLast? ≠ some '\r') :
    (completedLine t1 t2 msg).getLast? ≠ some '\r' := by
  have he : completedLine t1 t2 msg =
      (formatTs t1 ++ ' ' :: '-' :: '>' :: ' ' :: formatTs t2 ++
        ' ' :: '(' :: display_duration (epochSecs t2 - epochSecs t1) ++ [')', ':', ' ']) ++ msg := by
    rw [completedLine]
    simp [List.append_assoc]
  rw [he, List.getLast?_append]
  cases hmsg : msg.getLast? with
  | none =>
    simp only [Option.or]
    rw [List.getLast?_append]
    simp [List.getLast?_append]
  | some c =>
    simp only [Option.or]
    rw [hmsg] at hm
    exact hm

theorem currentLine_last (t : Tm) (now : Int) :
    (currentLine t now).getLast? ≠ some '\r' := by
  have he : currentLine t now =
      (formatTs t ++ ' ' :: '-' :: '>' :: ' ' :: '[' :: 'n' :: 'o' :: 'w' :: ']' ::
        (List.replicate 27 ' ' ++ '(' :: display_duration (now - epochSecs t))) ++ [')'] := by
    rw [currentLine]
    simp [List.append_assoc]
  rw [he, List.getLast?_concat]
  decide

/-! ## Assembling the round-trip -/

theorem except_ok_bind {α β : Type} (a : α) (f : α → Except String β) :
    (Except.ok a >>= f) = f a := rfl

theorem fmtSession_ok (s : Session) (e : Tm) (m : List Char)
    (hstop : s.stop = some e) (hmsg : s.message = some m) :
    fmtSession s = some (completedLine s.start e m ++ ['\n']) := by
  rw [fmtSession, hstop, hmsg]
  rfl

theorem mapM_fmtSession (ss : List Session) (hss : ∀ s ∈ ss, sessionOk s) :
    ∃ lns, ss.mapM fmtSession = some lns := by
  induction ss with
  | nil => exact ⟨[], rfl⟩
  | cons s rest ih =>
    obtain ⟨e, m, hstop, hmsg, _⟩ := hss s (List.mem_cons_self _ _)
    obtain ⟨lns, hlns⟩ := ih (fun s' hs' => hss s' (List.mem_cons_of_mem _ hs'))
    refine ⟨(completedLine s.start e m ++ ['\n']) :: lns, ?_⟩
    rw [List.mapM_cons, fmtSession_ok s e m hstop hmsg, hlns]
    rfl

theorem foldl_completed (ss : List Session) :
    ∀ (hss : ∀ s ∈ ss, sessionOk s) (pre : List Session) (tailTxt : List Char)
      (lns : List (List Char)), ss.mapM fmtSession = some lns →
      (rustLines (lns.flatten ++ tailTxt)).foldlM procLine ⟨pre, none⟩
        = (rustLines tailTxt).foldlM procLine ⟨pre ++ ss, none⟩ := by
  induction ss with
  | nil =>
    intro _ pre tailTxt lns hlns
    rw [List.mapM_nil] at hlns
    cases hlns
    simp
  | cons s rest ih =>
    intro hss pre tailTxt lns hlns
    obtain ⟨e, m, hstop, hmsg, hv1, hc1, hm1, hv2, hc2, hm2, hnl, hcr, hdur⟩ :=
      hss s (List.mem_cons_self _ _)
    rw [List.mapM_cons, fmtSession_ok s e m hstop hmsg] at hlns
    obtain ⟨lns', hlns', rfl⟩ : ∃ lns', rest.mapM fmtSession = some lns' ∧
        lns = (completedLine s.start e m ++ ['\n']) :: lns' := by
      cases hrest : rest.mapM fmtSession with
      | none => rw [hrest] at hlns; cases hlns
      | some l' =>
        rw [hrest] at hlns
        exact ⟨l', rfl, by injection hlns with h; exact h.symm⟩
    rw [List.flatten_cons]
    have hshape : (completedLine s.start e m ++ ['\n']) ++ (lns'.flatten ++ tailTxt)
        = completedLine s.start e m ++ '\n' :: (lns'.flatten ++ tailTxt) := by
      simp [List.append_assoc]
    rw [List.append_assoc, hshape]
    rw [rustLines_line _ _ (completedLine_no_nl s.start e m hnl hdur)]
    rw [stripCr_eq _ (completedLine_last s.start e m hcr)]
    rw [List.foldlM_cons]
    rw [procLine_completedLine ⟨pre, none⟩ s.start e m hv1 hc1 hm1 hv2 hc2 hm2 hdur]
    rw [except_ok_bind]
    have hsess : ({ completed := pre, current := none : Log }.completed
        ++ [⟨s.start, some e, some m⟩]) = pre ++ [s] := by
      cases s
      simp only at hstop hmsg
      rw [hstop, hmsg]
    dsimp only at hsess ⊢
    rw [hsess]
    rw [ih (fun s' hs' => hss s' (List.mem_cons_of_mem _ hs')) (pre ++ [s]) tailTxt lns' hlns']
    simp

/-- C1 (amended): for every `Log` whose completed sessions all have an
end, a single-line message that does not end in a carriage return, valid
canonical timestamps whose UTC offsets have a zero minute component, and
a strictly positive whole-second duration, and whose current session (if
any) has no end, no message, a valid canonical zero-offset-minute start
and strictly positive elapsed time at the formatting instant, parsing
the text produced by the log formatter yields the same `Log` back — same
completed sessions in the same order, same current session (whose
displayed duration is recomputed at format time and ignored by the
parser).  Both families of extra hypotheses are forced by
`C1_counterexample`: a zero-duration session renders its duration as
`N/A`, which the parser rejects; and a `UTC+05:30` offset is printed as
`(UTC+05:00)` — `TIMESTAMP_FMT` has no offset-minute field — so it
reparses without error to a log shifted by 1800 seconds. -/
theorem C1_parse_format_roundtrip (log : Log) (now : Int)
    (hc : ∀ s ∈ log.completed, sessionOk s)
    (hk : ∀ c, log.current = some c → currentOk now c) :
    ∃ txt, format_log log now = some txt ∧ parse_log_fmtd txt = Except.ok log := by
  obtain ⟨lns, hlns⟩ := mapM_fmtSession log.completed hc
  cases hlog : log.current with
  | none =>
    refine ⟨lns.flatten ++ [], ?_, ?_⟩
    · rw [format_log, hlns, hlog]
      rfl
    · rw [parse_log_fmtd, foldl_completed log.completed hc [] [] lns hlns]
      rw [show rustLines [] = [] from rfl, List.foldlM_nil, List.nil_append]
      cases log
      simp only at hlog
      rw [hlog]
      rfl
  | some c =>
    obtain ⟨hstop, hmsg, hv, hcn, hm, hd⟩ := hk c hlog
    refine ⟨lns.flatten ++ (currentLine c.start now ++ ['\n']), ?_, ?_⟩
    · rw [format_log, hlns, hlog]
      rfl
    · rw [parse_log_fmtd, foldl_completed log.completed hc [] _ lns hlns]
      rw [show currentLine c.start now ++ ['\n']
            = currentLine c.start now ++ '\n' :: [] from rfl]
      rw [rustLines_line _ _ (currentLine_no_nl c.start now hd)]
      rw [stripCr_eq _ (currentLine_last c.start now)]
      rw [show rustLines [] = [] from rfl]
      rw [List.nil_append, List.foldlM_cons]
      rw [procLine_currentLine ⟨log.completed, none⟩ c.start now hv hcn hm rfl hd]
      rw [except_ok_bind, List.foldlM_nil]
      have hsess : (⟨c.start, none, none⟩ : Session) = c := by
        cases c
        simp only at hstop hmsg
        rw [hstop, hmsg]
      rw [hsess]
      cases log
      simp only at hlog
      rw [hlog]
      rfl

/-! ## Single-line inputs and arbitrary duration annotations -/

theorem linesGo_no_nl (l : List Char) (hnl : '\n' ∉ l) :
    ∀ cur, cur ++ l ≠ [] → linesGo cur l = [cur ++ l] := by
  induction l with
  | nil =>
    intro cur hne
    rw [List.append_nil] at hne ⊢
    simp [linesGo, hne]
  | cons c cs ih =>
    intro cur _
    have hc : ¬(c = '\n') := fun e => hnl (by rw [e]; exact List.mem_cons_self _ _)
    simp only [linesGo, if_neg hc]
    rw [ih (fun hm => hnl (List.mem_cons_of_mem _ hm)) (cur ++ [c]) (by simp)]
    simp

theorem rustLines_no_nl (l : List Char) (hnl : '\n' ∉ l) (hne : l ≠ []) :
    rustLines l = [l] := by
  unfold rustLines
  rw [linesGo_no_nl l hnl [] (by simpa)]
  rfl

theorem except_bind_pure {α : Type} (x : Except String α) : (x >>= pure) = x := by
  cases x <;> rfl

theorem parse_single (l : List Char) (hnl : '\n' ∉ l) (hne : l ≠ []) :
    parse_log_fmtd l = procLine ⟨[], none⟩ l := by
  rw [parse_log_fmtd, rustLines_no_nl l hnl hne, List.foldlM_cons]
  simp only [List.foldlM_nil]
  exact except_bind_pure _

theorem tryAt_durLine (t1 t2 : Tm) (dur msg : List Char)
    (h1 : t1.validB = true) (hm1 : t1.offMinute = 0)
    (h2 : t2.validB = true) (hm2 : t2.offMinute = 0)
    (hdur : ∀ c ∈ dur, isDurC c = true) :
    tryAt (formatTs t1 ++ ' ' :: '-' :: '>' :: ' ' :: formatTs t2 ++
        ' ' :: '(' :: dur ++ ')' :: ':' :: ' ' :: msg)
      = some ⟨t1, some t2, false, some msg⟩ := by
  rw [tryAt]
  simp only [Option.bind_eq_bind, List.append_assoc, List.cons_append, List.append_eq,
    List.nil_append]
  rw [pTs_format t1 _ h1 hm1]
  simp only [Option.some_bind]
  rw [pArrow_cons]
  simp only [Option.some_bind]
  rw [pTs_format t2 _ h2 hm2]
  dsimp only
  rw [ch_cons]
  simp only [Option.some_bind]
  rw [ch_cons]
  simp only [Option.some_bind]
  rw [finishCaps]
  rw [dropWhile_stop _ _ _ _ hdur (by decide)]
  rfl

theorem procLine_durLine (lg : Log) (t1 t2 : Tm) (dur msg : List Char)
    (h1 : t1.validB = true) (hc1 : t1.canonical) (hm1 : t1.offMinute = 0)
    (h2 : t2.validB = true) (hc2 : t2.canonical) (hm2 : t2.offMinute = 0)
    (hdur : ∀ c ∈ dur, isDurC c = true) :
    procLine lg (formatTs t1 ++ ' ' :: '-' :: '>' :: ' ' :: formatTs t2 ++
        ' ' :: '(' :: dur ++ ')' :: ':' :: ' ' :: msg)
      = .ok { lg with completed := lg.completed ++ [⟨t1, some t2, some msg⟩] } := by
  rw [procLine]
  rw [if_neg (not_skip_of_head_digit _ (t1.month / 10) (by rw [formatTs]; simp [pad2]))]
  rw [matchLine_of_tryAt _ _ (tryAt_durLine t1 t2 dur msg h1 hm1 h2 hm2 hdur)]
  dsimp only
  rw [parseTsValidated_ok t1 h1 hc1, parseTsValidated_ok t2 h2 hc2]
  rfl

theorem getLast?_replicate_space (n : Nat) :
    (List.replicate (n + 1) ' ').getLast? = some ' ' := by
  rw [List.replicate_succ', List.getLast?_concat]

theorem tryAt_nowLine (t : Tm) (k : Nat) (dur : List Char)
    (h1 : t.validB = true) (hm1 : t.offMinute = 0)
    (hdur : ∀ c ∈ dur, isDurC c = true) :
    tryAt (formatTs t ++ ' ' :: '-' :: '>' :: ' ' :: '[' :: 'n' :: 'o' :: 'w' :: ']' ::
        (List.replicate (k + 2) ' ' ++ '(' :: dur ++ [')']))
      = some ⟨t, none, true, none⟩ := by
  rw [tryAt]
  simp only [Option.bind_eq_bind, List.append_assoc, List.cons_append, List.append_eq,
    List.nil_append]
  rw [pTs_format t _ h1 hm1]
  simp only [Option.some_bind]
  rw [pArrow_cons]
  simp only [Option.some_bind]
  rw [pTs_lbrack]
  rw [pNowTail]
  simp only [Option.bind_eq_bind]
  rw [ch_cons]
  simp only [Option.some_bind]
  rw [ch_cons]
  simp only [Option.some_bind]
  rw [ch_cons]
  simp only [Option.some_bind]
  rw [ch_cons]
  simp only [Option.some_bind]
  rw [ch_cons]
  simp only [Option.some_bind]
  rw [takeWhile_all_append isWs _ '(' _ (replicate_ws (k + 2)) (by decide)]
  rw [dropWhile_stop isWs _ '(' _ (replicate_ws (k + 2)) (by decide)]
  rw [if_pos ⟨by simp, getLast?_replicate_space (k + 1)⟩]
  rw [ch_cons]
  simp only [Option.some_bind]
  rw [finishCaps]
  rw [show dur ++ [')'] = dur ++ ')' :: [] from rfl]
  rw [dropWhile_stop _ _ _ _ hdur (by decide)]
  rfl

theorem procLine_nowLine (lg : Log) (t : Tm) (k : Nat) (dur : List Char)
    (h1 : t.validB = true) (hc1 : t.canonical) (hm1 : t.offMinute = 0)
    (hcur : lg.current = none) (hdur : ∀ c ∈ dur, isDurC c = true) :
    procLine lg (formatTs t ++ ' ' :: '-' :: '>' :: ' ' :: '[' :: 'n' :: 'o' :: 'w' :: ']' ::
        (List.replicate (k + 2) ' ' ++ '(' :: dur ++ [')']))
      = .ok { lg with current := some ⟨t, none, none⟩ } := by
  rw [procLine]
  rw [if_neg (not_skip_of_head_digit _ (t.month / 10) (by rw [formatTs]; simp [pad2]))]
  rw [matchLine_of_tryAt _ _ (tryAt_nowLine t k dur h1 hm1 hdur)]
  dsimp only
  rw [hcur]
  dsimp only [Option.isSome]
  rw [if_neg (by simp)]
  rw [parseTsValidated_ok t h1 hc1]
  rfl

/-! ## `Status` characterization -/

theorem statusLoop_char (now : Tm) (l : List Session) (h : ∀ s ∈ l, s.stop.isSome) :
    ∀ acc : Int × Int × Int, statusLoop now acc l = some
      (acc.1 + ((l.map sessDur).sum),
       acc.2.1 + (((l.filter (fun s => sameDate s.start now
          && sameDate (s.stop.getD s.start) now)).map sessDur).sum),
       acc.2.2 + (((l.filter (fun s => sundayBasedWeek s.start == sundayBasedWeek now
          && sundayBasedWeek (s.stop.getD s.start) == sundayBasedWeek now)).map sessDur).sum)) := by
  induction l with
  | nil =>
    intro acc
    simp [statusLoop]
  | cons s rest ih =>
    intro acc
    obtain ⟨e, he⟩ := Option.isSome_iff_exists.mp (h s (List.mem_cons_self _ _))
    have hrest := ih (fun s' hs' => h s' (List.mem_cons_of_mem _ hs'))
    have hgd : s.stop.getD s.start = e := by rw [he]; rfl
    have hsd : sessDur s = epochSecs e - epochSecs s.start := by rw [sessDur, hgd]
    rw [statusLoop, he]
    simp only [Option.bind_eq_bind, Option.some_bind]
    rw [hrest]
    simp only [List.filter_cons, List.map_cons, List.sum_cons, hgd, hsd]
    split_ifs <;>
      simp only [List.map_cons, List.sum_cons, Option.some.injEq, Prod.mk.injEq, hsd] <;>
      first
        | trivial
        | (and_intros <;> first | trivial | rfl | exact add_assoc _ _ _)
        | rfl
        | exact add_assoc _ _ _

/-! ## CSV rows -/

theorem csvRow_eq (s : Session) (e : Tm) (m : List Char)
    (he : s.stop = some e) (hm : s.message = some m) :
    csvRow s = some (csvTs (epochSecs s.start), csvTs (epochSecs e),
      (epochSecs e - epochSecs s.start).tdiv (60 * 60),
      ((epochSecs e - epochSecs s.start).tdiv 60).tmod 60,
      (epochSecs e - epochSecs s.start).tmod 60, m) := by
  rw [csvRow, he, hm]
  rfl

theorem csv_list (l : List Session) (h : ∀ s ∈ l, s.stop.isSome ∧ s.message.isSome) :
    ∃ rows, l.mapM csvRow = some rows ∧ rows.length = l.length ∧
      ∀ (i : Nat) (hi : i < l.length) (e : Tm) (m : List Char),
        (l.get ⟨i, hi⟩).stop = some e → (l.get ⟨i, hi⟩).message = some m →
        rows.get? i = some (csvTs (epochSecs (l.get ⟨i, hi⟩).start), csvTs (epochSecs e),
          (epochSecs e - epochSecs (l.get ⟨i, hi⟩).start).tdiv (60 * 60),
          ((epochSecs e - epochSecs (l.get ⟨i, hi⟩).start).tdiv 60).tmod 60,
          (epochSecs e - epochSecs (l.get ⟨i, hi⟩).start).tmod 60, m) := by
  induction l with
  | nil =>
    refine ⟨[], rfl, rfl, fun i hi => absurd hi (by simp)⟩
  | cons s rest ih =>
    obtain ⟨hs1, hs2⟩ := h s (List.mem_cons_self _ _)
    obtain ⟨e0, he0⟩ := Option.isSome_iff_exists.mp hs1
    obtain ⟨m0, hm0⟩ := Option.isSome_iff_exists.mp hs2
    obtain ⟨rows, hr, hlen, hidx⟩ := ih (fun s' hs' => h s' (List.mem_cons_of_mem _ hs'))
    refine ⟨(csvTs (epochSecs s.start), csvTs (epochSecs e0),
      (epochSecs e0 - epochSecs s.start).tdiv (60 * 60),
      ((epochSecs e0 - epochSecs s.start).tdiv 60).tmod 60,
      (epochSecs e0 - epochSecs s.start).tmod 60, m0) :: rows, ?_, by simp [hlen], ?_⟩
    · rw [List.mapM_cons, csvRow_eq s e0 m0 he0 hm0, hr]
      rfl
    · intro i hi e m hse hsm
      cases i with
      | zero =>
        have hgets : ((s :: rest).get ⟨0, hi⟩) = s := rfl
        rw [hgets] at hse hsm
        rw [he0] at hse
        rw [hm0] at hsm
        have h1 : e0 = e := Option.some.inj hse
        have h2 : m0 = m := Option.some.inj hsm
        subst h1
        subst h2
        rfl
      | succ j =>
        have hj : j < rest.length := by
          simp only [List.length_cons] at hi
          omega
        have hgets : ((s :: rest).get ⟨j + 1, hi⟩) = rest.get ⟨j, hj⟩ := rfl
        rw [hgets] at hse hsm
        have := hidx j hj e m hse hsm
        simpa using this

/-! ## Claims -/

/-- C1 witness: the round-trip theorem applied to a concrete log with one
completed session and a current session. -/
theorem C1_roundtrip_witness :
    ∃ txt,
      format_log ⟨[⟨⟨6, 24, 2022, 16, 55, 46, true, 5, 0, 0⟩,
          some ⟨6, 24, 2022, 16, 55, 49, true, 5, 0, 0⟩, some ('h' :: 'i' :: [])⟩],
        some ⟨⟨6, 24, 2022, 17, 21, 10, true, 5, 0, 0⟩, none, none⟩⟩
        (epochSecs ⟨6, 24, 2022, 18, 0, 0, true, 5, 0, 0⟩) = some txt
      ∧ parse_log_fmtd txt = Except.ok ⟨[⟨⟨6, 24, 2022, 16, 55, 46, true, 5, 0, 0⟩,
          some ⟨6, 24, 2022, 16, 55, 49, true, 5, 0, 0⟩, some ('h' :: 'i' :: [])⟩],
        some ⟨⟨6, 24, 2022, 17, 21, 10, true, 5, 0, 0⟩, none, none⟩⟩ := by
  apply C1_parse_format_roundtrip
  · intro s hs
    simp only [List.mem_singleton] at hs
    subst hs
    exact ⟨⟨6, 24, 2022, 16, 55, 49, true, 5, 0, 0⟩, 'h' :: 'i' :: [], rfl, rfl,
      by decide, by decide, by decide, by decide, by decide, by decide, by decide,
      by decide, by decide⟩
  · intro c hcq
    injection hcq with h
    subst h
    exact ⟨rfl, rfl, by decide, by decide, by decide, by decide⟩

/-- C1 counterexample: the claim as stated is false, in two independent
ways.  First, a log whose single completed session has equal start and
end (well-formed: it has an end and a single-line message) formats its
duration as `N/A`, and the parser's duration pattern `[0-9a-z, ]*`
rejects `N/A` (uppercase and `/`), so `parse(format(log))` is an error,
not the log.  Second, a log whose timestamps carry a `UTC+05:30` offset
is formatted with `TIMESTAMP_FMT`, which prints only the offset's hour
and second fields, so the text reads `(UTC+05:00)` and reparses without
error to a *different* log whose offsets are `+05:00` — every instant
shifted by 1800 seconds. -/
theorem C1_counterexample :
    (format_log ⟨[⟨⟨6, 24, 2022, 16, 55, 46, true, 5, 0, 0⟩,
        some ⟨6, 24, 2022, 16, 55, 46, true, 5, 0, 0⟩, some ('h' :: 'i' :: [])⟩], none⟩ 0
      = some ("06-24-2022 16:55:46 (UTC-05:00) -> 06-24-2022 16:55:46 (UTC-05:00) (N/A): hi\n").data
    ∧ parse_log_fmtd
        ("06-24-2022 16:55:46 (UTC-05:00) -> 06-24-2022 16:55:46 (UTC-05:00) (N/A): hi\n").data
      = Except.error "Failed to parse log line")
    ∧ (format_log ⟨[⟨⟨6, 24, 2022, 16, 55, 46, false, 5, 30, 0⟩,
        some ⟨6, 24, 2022, 16, 55, 49, false, 5, 30, 0⟩, some ('h' :: 'i' :: [])⟩], none⟩ 0
      = some ("06-24-2022 16:55:46 (UTC+05:00) -> 06-24-2022 16:55:49 (UTC+05:00) (3 seconds): hi\n").data
    ∧ parse_log_fmtd
        ("06-24-2022 16:55:46 (UTC+05:00) -> 06-24-2022 16:55:49 (UTC+05:00) (3 seconds): hi\n").data
      = Except.ok ⟨[⟨⟨6, 24, 2022, 16, 55, 46, false, 5, 0, 0⟩,
          some ⟨6, 24, 2022, 16, 55, 49, false, 5, 0, 0⟩, some ('h' :: 'i' :: [])⟩], none⟩
    ∧ (⟨6, 24, 2022, 16, 55, 46, false, 5, 0, 0⟩ : Tm) ≠ ⟨6, 24, 2022, 16, 55, 46, false, 5, 30, 0⟩
    ∧ epochSecs ⟨6, 24, 2022, 16, 55, 46, false, 5, 0, 0⟩
        - epochSecs ⟨6, 24, 2022, 16, 55, 46, false, 5, 30, 0⟩ = 1800) := by
  refine ⟨⟨?_, ?_⟩, ?_, ?_, ?_, ?_⟩ <;> decide

/-- C2: the parser fails with an error, producing no `Log`, on each of:
a line whose `[now]` branch matched and that also captured a `: message`
suffix; an input with two `[now]` lines; a line with an explicit end
timestamp but no `: message` suffix; and a line matching the structural
pattern whose timestamp fails calendar parsing (day 32). -/
theorem C2_parser_rejections :
    parse_log_fmtd ("06-24-2022 16:55:46 (UTC-05:00) -> [now]  (3 seconds): hi").data
      = Except.error "Log lines must not have a message if they are current."
    ∧ parse_log_fmtd
        ("06-24-2022 16:55:46 (UTC-05:00) -> [now]  (x)\n06-24-2022 16:55:47 (UTC-05:00) -> [now]  (y)").data
      = Except.error "There can only be one current log line."
    ∧ parse_log_fmtd
        ("06-24-2022 16:55:46 (UTC-05:00) -> 06-24-2022 16:55:49 (UTC-05:00) (3 seconds)").data
      = Except.error "A completed log must have a message."
    ∧ parse_log_fmtd
        ("06-32-2022 16:55:46 (UTC-05:00) -> 06-24-2022 16:55:49 (UTC-05:00) (3 seconds): hi").data
      = Except.error "Failed to parse timestamp" := by
  refine ⟨?_, ?_, ?_, ?_⟩ <;> decide

/-- C4: `display_duration` evaluated at the claim's four inputs.  The
code agrees with the claim at 0 and -5 seconds but *diverges* at 61 and
3661 seconds: the singular/plural choice compares the undecomposed totals
(61 seconds, 61 minutes) with 1 while printing the mod-60 value, so the
output is `"1 minute, 1 seconds"` and `"1 hour, 1 minutes, 1 seconds"`
instead of the specified `"1 minute, 1 second"` and
`"1 hour, 1 minute, 1 second"`. -/
theorem C4_display_duration_values :
    display_duration 0 = "N/A".data
    ∧ display_duration 61 = "1 minute, 1 seconds".data
    ∧ display_duration 3661 = "1 hour, 1 minutes, 1 seconds".data
    ∧ display_duration (-5) = "N/A".data := by
  refine ⟨?_, ?_, ?_, ?_⟩ <;> decide

/-- C5: the formatter does not omit zero components as claimed: at 7200
seconds the decomposed minutes and seconds components are 0, yet the code
emits them (`cmp(&1)` is applied to the totals 120 minutes and 7200
seconds, both `Greater`, and the printed value is the mod-60 component),
producing `"2 hours, 0 minutes, 0 seconds"` where the claimed algorithm
yields `"2 hours"`. -/
theorem C5_display_duration_7200 :
    display_duration 7200 = "2 hours, 0 minutes, 0 seconds".data := by
  decide

/-- C10: the structural pattern is not anchored to the whole line: a line
with arbitrary extra characters before the start timestamp is not itself
a well-formed entry, yet the parser succeeds and constructs the session
from the matching substring. -/
theorem C10_regex_not_anchored :
    parse_log_fmtd
        ("xx 06-24-2022 16:55:46 (UTC-05:00) -> 06-24-2022 16:55:49 (UTC-05:00) (3 seconds): hi").data
      = Except.ok ⟨[⟨⟨6, 24, 2022, 16, 55, 46, true, 5, 0, 0⟩,
          some ⟨6, 24, 2022, 16, 55, 49, true, 5, 0, 0⟩, some ('h' :: 'i' :: [])⟩], none⟩ := by
  decide

/-- C3 counterexample: the claim's "arbitrary alphanumeric" content is
false — the duration character class is `[0-9a-z, ]`, lowercase only, so
uppercase alphanumeric content in the parentheses makes the structural
pattern fail and the parser reject the line. -/
theorem C3_counterexample :
    parse_log_fmtd
        ("06-24-2022 16:55:46 (UTC-05:00) -> 06-24-2022 16:55:49 (UTC-05:00) (3 SECONDS): hi").data
      = Except.error "Failed to parse log line" := by
  decide

/-- C3 (amended): the parser skips (accepts without effect) every line
starting with `#` and every empty line, and for matching entry lines it
accepts arbitrary content consisting of digits, lowercase letters, commas
and spaces inside the duration parentheses, ignoring that content
entirely — the parse result does not depend on it. -/
theorem C3_skips_and_duration_ignored :
    (∀ cmt rest : List Char, '\n' ∉ cmt →
      parse_log_fmtd (('#' :: cmt) ++ '\n' :: rest) = parse_log_fmtd rest)
    ∧ (∀ rest : List Char, parse_log_fmtd ('\n' :: rest) = parse_log_fmtd rest)
    ∧ (∀ dur : List Char, (∀ c ∈ dur, isDurC c = true) →
      parse_log_fmtd
          (("06-24-2022 16:55:46 (UTC-05:00) -> 06-24-2022 16:55:49 (UTC-05:00) (").data
            ++ dur ++ ("): hi").data)
        = Except.ok ⟨[⟨⟨6, 24, 2022, 16, 55, 46, true, 5, 0, 0⟩,
            some ⟨6, 24, 2022, 16, 55, 49, true, 5, 0, 0⟩, some ('h' :: 'i' :: [])⟩], none⟩) := by
  refine ⟨?_, ?_, ?_⟩
  · intro cmt rest hnl
    have hnotnl : '\n' ∉ '#' :: cmt := by
      intro hm
      rcases List.mem_cons.mp hm with h1 | h2
      · cases h1
      · exact hnl h2
    rw [parse_log_fmtd, rustLines_line _ _ hnotnl]
    have hhash : ∃ cmt', stripCr ('#' :: cmt) = '#' :: cmt' := by
      unfold stripCr
      split_ifs with h0
      · cases cmt with
        | nil => cases h0
        | cons c cs => exact ⟨(c :: cs).dropLast, rfl⟩
      · exact ⟨cmt, rfl⟩
    obtain ⟨cmt', hcmt'⟩ := hhash
    rw [hcmt', List.foldlM_cons]
    rw [show procLine ⟨[], none⟩ ('#' :: cmt') = .ok ⟨[], none⟩ from by
      rw [procLine, if_pos (Or.inl (show ('#' :: cmt').head? = some '#' from rfl))]]
    rw [except_ok_bind]
    rfl
  · intro rest
    rw [parse_log_fmtd, show rustLines ('\n' :: rest) = [] :: rustLines rest from rfl,
      List.foldlM_cons]
    rw [show procLine ⟨[], none⟩ [] = .ok ⟨[], none⟩ from by
      rw [procLine, if_pos (Or.inr (show ([] : List Char) = [] from rfl))]]
    rw [except_ok_bind]
    rfl
  · intro dur hdur
    have hnl : '\n' ∉ ("06-24-2022 16:55:46 (UTC-05:00) -> 06-24-2022 16:55:49 (UTC-05:00) (").data
        ++ dur ++ ("): hi").data := by
      intro hm
      rcases List.mem_append.mp hm with h1 | h2
      · rcases List.mem_append.mp h1 with h3 | h4
        · revert h3; decide
        · have := hdur _ h4
          revert this
          decide
      · revert h2; decide
    have hne : ("06-24-2022 16:55:46 (UTC-05:00) -> 06-24-2022 16:55:49 (UTC-05:00) (").data
        ++ dur ++ ("): hi").data ≠ [] :=
      List.append_ne_nil_of_right_ne_nil _ (by decide)
    rw [parse_single _ hnl hne]
    rw [show ("06-24-2022 16:55:46 (UTC-05:00) -> 06-24-2022 16:55:49 (UTC-05:00) (").data
          ++ dur ++ ("): hi").data
        = formatTs ⟨6, 24, 2022, 16, 55, 46, true, 5, 0, 0⟩ ++ ' ' :: '-' :: '>' :: ' ' ::
          formatTs ⟨6, 24, 2022, 16, 55, 49, true, 5, 0, 0⟩ ++ ' ' :: '(' :: dur ++
          ')' :: ':' :: ' ' :: ('h' :: 'i' :: []) from rfl]
    rw [procLine_durLine ⟨[], none⟩ _ _ dur _ (by decide) (by decide) (by decide) (by decide) (by decide) (by decide) hdur]
    rfl

/-- C3 witness: the amended theorem applied at concrete inputs — a
comment line, a blank line, and a nonsense duration annotation in the
accepted character class. -/
theorem C3_witness :
    parse_log_fmtd (('#' :: (" a comment").data) ++ '\n' :: []) = parse_log_fmtd []
    ∧ parse_log_fmtd ('\n' :: ("# x").data) = parse_log_fmtd ("# x").data
    ∧ parse_log_fmtd
        (("06-24-2022 16:55:46 (UTC-05:00) -> 06-24-2022 16:55:49 (UTC-05:00) (").data
          ++ ("whatever, 99 bananas").data ++ ("): hi").data)
      = Except.ok ⟨[⟨⟨6, 24, 2022, 16, 55, 46, true, 5, 0, 0⟩,
          some ⟨6, 24, 2022, 16, 55, 49, true, 5, 0, 0⟩, some ('h' :: 'i' :: [])⟩], none⟩ :=
  ⟨C3_skips_and_duration_ignored.1 _ _ (by decide),
   C3_skips_and_duration_ignored.2.1 _,
   C3_skips_and_duration_ignored.2.2 _ (by decide)⟩

/-- C6 counterexample: the claim is false for a single space.  In the
regex, `\[now\](\s+)` is followed by the alternation's literal space
before `\(`, so `[now]` must be followed by at least two whitespace
characters; with exactly one space between `[now]` and the parenthesis
the line fails to match and the parser errors out. -/
theorem C6_counterexample :
    parse_log_fmtd
        ("06-24-2022 17:21:10 (UTC-05:00) -> [now] (35 minutes, 47 seconds)").data
      = Except.error "Failed to parse log line" := by
  decide

/-- C6 (amended): the structural pattern accepts the literal token
`[now]` followed by one-or-more whitespace characters for the `\s+`
group plus the alternation's literal space — i.e. at least two spaces in
total — before the parenthesized duration annotation; for every `k`, a
line with `k + 2` trailing spaces after `[now]` parses successfully as a
current entry. -/
theorem C6_now_whitespace (k : Nat) :
    formatTs ⟨6, 24, 2022, 17, 21, 10, true, 5, 0, 0⟩
        = ("06-24-2022 17:21:10 (UTC-05:00)").data
    ∧ parse_log_fmtd (formatTs ⟨6, 24, 2022, 17, 21, 10, true, 5, 0, 0⟩ ++ ' ' :: '-' :: '>' :: ' ' ::
        '[' :: 'n' :: 'o' :: 'w' :: ']' :: (List.replicate (k + 2) ' ' ++ '(' ::
        ("35 minutes, 47 seconds").data ++ [')']))
      = Except.ok ⟨[], some ⟨⟨6, 24, 2022, 17, 21, 10, true, 5, 0, 0⟩, none, none⟩⟩ := by
  constructor
  · decide
  · have hnl : '\n' ∉ formatTs ⟨6, 24, 2022, 17, 21, 10, true, 5, 0, 0⟩ ++ ' ' :: '-' :: '>' :: ' ' ::
        '[' :: 'n' :: 'o' :: 'w' :: ']' :: (List.replicate (k + 2) ' ' ++ '(' ::
        ("35 minutes, 47 seconds").data ++ [')']) := by
      intro hm
      rcases List.mem_append.mp hm with h1 | h2
      · exact formatTs_no_nl _ h1
      · simp only [List.mem_cons] at h2
        rcases h2 with h | h | h | h | h | h | h | h | h | h2
        all_goals try exact absurd h (by decide)
        rcases List.mem_append.mp h2 with h3 | h4
        · rcases List.mem_append.mp h3 with h5 | h6
          · exact absurd (List.eq_of_mem_replicate h5) (by decide)
          · simp only [List.mem_cons] at h6
            rcases h6 with h | h6
            · exact absurd h (by decide)
            · revert h6; decide
        · revert h4; decide
    have hne : formatTs ⟨6, 24, 2022, 17, 21, 10, true, 5, 0, 0⟩ ++ ' ' :: '-' :: '>' :: ' ' ::
        '[' :: 'n' :: 'o' :: 'w' :: ']' :: (List.replicate (k + 2) ' ' ++ '(' ::
        ("35 minutes, 47 seconds").data ++ [')']) ≠ [] :=
      List.append_ne_nil_of_right_ne_nil _ (by simp)
    rw [parse_single _ hnl hne]
    rw [procLine_nowLine ⟨[], none⟩ _ k _ (by decide) (by decide) (by decide) rfl (by decide)]

/-- C7 counterexample: the claim is false across years.  `Status`
compares `sunday_based_week()` numbers only — the year is not part of the
comparison — so a session from 2021-06-25 (week 25 of 2021), which does
not fall within the same calendar week as the current time 2022-06-24
(week 25 of 2022), still contributes its full 3 seconds to the
"this week" total. -/
theorem C7_counterexample :
    statusTotals [⟨⟨6, 25, 2021, 16, 55, 46, false, 0, 0, 0⟩,
        some ⟨6, 25, 2021, 16, 55, 49, false, 0, 0, 0⟩, some ('x' :: [])⟩]
        ⟨6, 24, 2022, 12, 0, 0, false, 0, 0, 0⟩ = some (3, 0, 3)
    ∧ specSameWeek ⟨6, 25, 2021, 16, 55, 46, false, 0, 0, 0⟩ ⟨6, 24, 2022, 12, 0, 0, false, 0, 0, 0⟩
        = false := by
  constructor
  · decide
  · decide

/-- C7 (amended): in the `Status` command, a completed session counts
toward the "today" total exactly when both its start and its end fall on
the same calendar day as the current day, and toward the "this week"
total exactly when both its start and its end have the same Sunday-based
week *number within their own year* as the current time — the year is
not compared, so a session from the equally-numbered week of a different
year also counts.  The totals are the sums over the so-filtered
sessions. -/
theorem C7_status_totals (l : List Session) (now : Tm) (h : ∀ s ∈ l, s.stop.isSome) :
    statusTotals l now = some
      ((l.map sessDur).sum,
       ((l.filter (fun s => sameDate s.start now
          && sameDate (s.stop.getD s.start) now)).map sessDur).sum,
       ((l.filter (fun s => sundayBasedWeek s.start == sundayBasedWeek now
          && sundayBasedWeek (s.stop.getD s.start) == sundayBasedWeek now)).map sessDur).sum) := by
  have h0 := statusLoop_char now l h (0, 0, 0)
  simpa [statusTotals] using h0

/-- C7 witness: the amended totals theorem applied to a concrete log
whose single session lies on the same day and week as `now`. -/
theorem C7_status_totals_witness :
    statusTotals [⟨⟨6, 24, 2022, 16, 55, 46, false, 0, 0, 0⟩,
        some ⟨6, 24, 2022, 16, 55, 49, false, 0, 0, 0⟩, some ('x' :: [])⟩]
        ⟨6, 24, 2022, 12, 0, 0, false, 0, 0, 0⟩ = some (3, 3, 3) := by
  rw [C7_status_totals _ _ (by decide)]
  decide

/-- C8: CSV export produces, for each completed session in order, a row
of (UTC-normalized start, UTC-normalized end, hours, minutes mod 60,
seconds mod 60, message) with `seconds = (end - start).whole_seconds()`,
`minutes = seconds / 60`, `hours = seconds / 3600`, the timestamps in the
`YYYY-MM-DDTHH:MM:SS` encoding. -/
theorem C8_csv_rows (log : Log)
    (h : ∀ s ∈ log.completed, s.stop.isSome ∧ s.message.isSome) :
    ∃ rows, csvRows log = some rows ∧ rows.length = log.completed.length ∧
      ∀ (i : Nat) (hi : i < log.completed.length) (e : Tm) (m : List Char),
        (log.completed.get ⟨i, hi⟩).stop = some e →
        (log.completed.get ⟨i, hi⟩).message = some m →
        rows.get? i = some (csvTs (epochSecs (log.completed.get ⟨i, hi⟩).start),
          csvTs (epochSecs e),
          (epochSecs e - epochSecs (log.completed.get ⟨i, hi⟩).start).tdiv (60 * 60),
          ((epochSecs e - epochSecs (log.completed.get ⟨i, hi⟩).start).tdiv 60).tmod 60,
          (epochSecs e - epochSecs (log.completed.get ⟨i, hi⟩).start).tmod 60, m) := by
  rw [csvRows]
  exact csv_list log.completed h

/-- C8 witness: the row theorem applied to a concrete log, together with
the claim's concrete example — a session from `2022-06-24T16:55:46Z` to
`2022-06-24T16:55:49Z` yields the row
`(2022-06-24T16:55:46, 2022-06-24T16:55:49, 0, 0, 3, msg)`. -/
theorem C8_csv_rows_witness :
    (∃ rows, csvRows ⟨[⟨⟨6, 24, 2022, 16, 55, 46, false, 0, 0, 0⟩,
        some ⟨6, 24, 2022, 16, 55, 49, false, 0, 0, 0⟩, some ('m' :: 's' :: 'g' :: [])⟩], none⟩
        = some rows ∧ rows.length = 1)
    ∧ csvRows ⟨[⟨⟨6, 24, 2022, 16, 55, 46, false, 0, 0, 0⟩,
        some ⟨6, 24, 2022, 16, 55, 49, false, 0, 0, 0⟩, some ('m' :: 's' :: 'g' :: [])⟩], none⟩
      = some [(("2022-06-24T16:55:46").data, ("2022-06-24T16:55:49").data, 0, 0, 3,
          'm' :: 's' :: 'g' :: [])] := by
  constructor
  · obtain ⟨rows, h1, h2, _⟩ := C8_csv_rows ⟨[⟨⟨6, 24, 2022, 16, 55, 46, false, 0, 0, 0⟩,
        some ⟨6, 24, 2022, 16, 55, 49, false, 0, 0, 0⟩, some ('m' :: 's' :: 'g' :: [])⟩], none⟩
      (by intro s hs; simp only [List.mem_singleton] at hs; subst hs; exact ⟨rfl, rfl⟩)
    exact ⟨rows, h1, by rw [h2]; rfl⟩
  · rfl

/-- C9: for every `Log` whose current slot is already occupied, `Begin`
reports the error non-fatally and leaves the entire `Log` unchanged: the
current session is still the original one and the completed list is
untouched. -/
theorem C9_begin_preserves (log : Log) (now : Tm) (s : Session)
    (h : log.current = some s) :
    beginCmd log now = (log, true)
    ∧ (beginCmd log now).1.current = some s
    ∧ (beginCmd log now).1.completed = log.completed := by
  simp [beginCmd, h]

/-- C9 witness: `Begin` on a concrete log with a current session. -/
theorem C9_begin_preserves_witness :
    beginCmd ⟨[], some ⟨⟨6, 24, 2022, 16, 55, 46, true, 5, 0, 0⟩, none, none⟩⟩
        ⟨6, 24, 2022, 17, 0, 0, true, 5, 0, 0⟩
      = (⟨[], some ⟨⟨6, 24, 2022, 16, 55, 46, true, 5, 0, 0⟩, none, none⟩⟩, true)
    ∧ (beginCmd ⟨[], some ⟨⟨6, 24, 2022, 16, 55, 46, true, 5, 0, 0⟩, none, none⟩⟩
        ⟨6, 24, 2022, 17, 0, 0, true, 5, 0, 0⟩).1.current
      = some ⟨⟨6, 24, 2022, 16, 55, 46, true, 5, 0, 0⟩, none, none⟩
    ∧ (beginCmd ⟨[], some ⟨⟨6, 24, 2022, 16, 55, 46, true, 5, 0, 0⟩, none, none⟩⟩
        ⟨6, 24, 2022, 17, 0, 0, true, 5, 0, 0⟩).1.completed = [] :=
  C9_begin_preserves _ _ _ rfl
